import Mathlib

/-!
A verification development for a restaurant-tipping dashboard (`app.py`).

The core logic is embedded shallowly:

* a pandas `DataFrame` of the tips table becomes a `List Row`;
* the six sidebar controls become a `FilterState` record;
* the reactive calc `tips_data` (boolean masks combined with `&` and used to
  index the frame) becomes mask lists combined pointwise and a mask-selection
  function;
* the four summary render functions, the plotly scatter with its
  `np.polyfit`/`np.linspace` best-fit line, and the reset effect are embedded
  as pure functions;
* currency amounts and tips are modelled as rationals.
-/

namespace TipsApp

/-- One row of `tips.csv`: columns `total_bill, tip, sex, smoker, day, time,
size` as loaded by `read_file` (numeric columns as rationals, categorical
columns as the CSV strings, `size` an integer). -/
structure Row where
  total_bill : ℚ
  tip : ℚ
  sex : String
  smoker : String
  day : String
  time : String
  size : ℤ
deriving DecidableEq

/-- The six sidebar inputs read by `tips_data`: the two range sliders
(`input.total_bill()`, `input.size()`) and the four checkbox groups
(`input.time()`, `input.sex()`, `input.smoker()`, `input.day()`).
Checkbox groups deliver their selections as lists of strings. -/
structure FilterState where
  bill_range : ℚ × ℚ
  time_selection : List String
  sex_selection : List String
  smoker_selection : List String
  day_selection : List String
  size_range : ℤ × ℤ
deriving DecidableEq

/-- Boolean-mask indexing `frame[mask]` of pandas: keep the rows whose mask
entry is `true`, in order. -/
def maskSelect : List Row → List Bool → List Row
  | [], _ => []
  | _ :: _, [] => []
  | r :: rs, b :: bs => if b then r :: maskSelect rs bs else maskSelect rs bs

/-- Pointwise `&` of two boolean masks, as pandas does for `idx1 & idx2`. -/
def bandList (xs ys : List Bool) : List Bool :=
  List.zipWith (fun a b => a && b) xs ys

/-- The reactive calc `tips_data` (app.py lines 191–202): six masks —
`between` on `total_bill` (inclusive on both ends, the pandas default),
`isin` on `time`, `sex`, `smoker`, `day`, and `between` on `size` — combined
with `&` left to right, then used to index the frame. -/
def tips_data (tips : List Row) (s : FilterState) : List Row :=
  let idx1 := tips.map fun r =>
    decide (s.bill_range.1 ≤ r.total_bill ∧ r.total_bill ≤ s.bill_range.2)
  let idx2 := tips.map fun r => decide (r.time ∈ s.time_selection)
  let idx3 := tips.map fun r => decide (r.sex ∈ s.sex_selection)
  let idx4 := tips.map fun r => decide (r.smoker ∈ s.smoker_selection)
  let idx5 := tips.map fun r => decide (r.day ∈ s.day_selection)
  let idx6 := tips.map fun r =>
    decide (s.size_range.1 ≤ r.size ∧ r.size ≤ s.size_range.2)
  maskSelect tips (bandList (bandList (bandList (bandList (bandList idx1 idx2) idx3) idx4) idx5) idx6)

/-- The per-row conjunction of the six predicates of `tips_data`, associated
the way `idx1 & idx2 & idx3 & idx4 & idx5 & idx6` associates. -/
def rowPass (s : FilterState) (r : Row) : Bool :=
  ((((decide (s.bill_range.1 ≤ r.total_bill ∧ r.total_bill ≤ s.bill_range.2) &&
      decide (r.time ∈ s.time_selection)) &&
      decide (r.sex ∈ s.sex_selection)) &&
      decide (r.smoker ∈ s.smoker_selection)) &&
      decide (r.day ∈ s.day_selection)) &&
      decide (s.size_range.1 ≤ r.size ∧ r.size ≤ s.size_range.2)

/-- pandas `Series.max()` over a column; the value at the empty column is
irrelevant because every caller guards on `data.shape[0] > 0` first. -/
def colMax : List ℚ → ℚ
  | [] => 0
  | x :: xs => xs.foldl max x

/-- pandas `Series.min()` over a column; same guard remark as `colMax`. -/
def colMin : List ℚ → ℚ
  | [] => 0
  | x :: xs => xs.foldl min x

/-- Python's `f"{v:.2f}"` formatting, modelled over `ℚ` as rounding to the
nearest hundredth (Mathlib's `round` resolves ties upward where float
formatting is round-half-even; the two agree on the exact dollar-and-cent
amounts of the dataset). -/
def round2 (q : ℚ) : ℚ := (round (100 * q) : ℚ) / 100

/-- `total_sales` (app.py lines 98–104): the number of filtered rows when the
filtered frame is non-empty, otherwise the "No data available" marker,
modelled as `none`. -/
def total_sales (rows : List Row) : Option ℕ :=
  if 0 < rows.length then some rows.length else none

/-- `average_tip` (app.py lines 110–117): `data["tip"].mean()` — the column
sum divided by the count — when non-empty, otherwise "No data available"
(`none`). The two-decimal display formatting is `round2`, applied in
`displayed_average_tip`. -/
def average_tip (rows : List Row) : Option ℚ :=
  if 0 < rows.length then some ((rows.map Row.tip).sum / (rows.length : ℚ)) else none

/-- The number shown by `average_tip`'s f-string `f"${avg_tip:.2f}"`. -/
def displayed_average_tip (rows : List Row) : Option ℚ :=
  (average_tip rows).map round2

/-- `highest_tip` (app.py lines 123–130): `data["tip"].max()` when non-empty,
otherwise "No data available" (`none`). -/
def highest_tip (rows : List Row) : Option ℚ :=
  if 0 < rows.length then some (colMax (rows.map Row.tip)) else none

/-- `lowest_tip` (app.py lines 136–143): `data["tip"].min()` when non-empty,
otherwise "No data available" (`none`). -/
def lowest_tip (rows : List Row) : Option ℚ :=
  if 0 < rows.length then some (colMin (rows.map Row.tip)) else none

/-- `np.polyfit(x, y, 1)`: the least-squares linear fit of `y` on `x`. For a
full-rank design (at least two distinct `x`) the unique minimizer is the
solution of the normal equations, written here in closed form by Cramer's
rule. In the rank-deficient case numpy returns some least-squares solution
with a `RankWarning`; here the `ℚ` convention `q / 0 = 0` stands in, and no
theorem relies on the value in that case. -/
def polyfit1 (xs ys : List ℚ) : ℚ × ℚ :=
  let n : ℚ := xs.length
  let sx := xs.sum
  let sy := ys.sum
  let sxx := (xs.map fun x => x * x).sum
  let sxy := ((xs.zip ys).map fun p => p.1 * p.2).sum
  let d := n * sxx - sx * sx
  ((n * sxy - sx * sy) / d, (sxx * sy - sx * sxy) / d)

/-- `np.linspace a b n`: `n` evenly spaced points from `a` to `b`, both ends
included. -/
def linspace (a b : ℚ) (n : ℕ) : List ℚ :=
  (List.range n).map fun i : ℕ => a + (b - a) * (i : ℚ) / ((n : ℚ) - 1)

/-- What `scatter_plot` returns to the renderer: either a figure holding the
scatter points, a fitted slope and intercept, and the sampled best-fit line,
or the blank "No data available" figure. -/
inductive ScatterResult
  | fitChart (points : List (ℚ × ℚ)) (slope intercept : ℚ) (line : List (ℚ × ℚ))
  | emptyChart
deriving DecidableEq

/-- `scatter_plot` (app.py lines 147–184): when the filtered frame is
non-empty, scatter the `(total_bill, tip)` points, fit
`np.polyfit(x_vals, y_vals, 1)`, sample the line on
`np.linspace(min(x_vals), max(x_vals), 100)`, and add it; otherwise return
the blank figure. -/
def scatter_plot (rows : List Row) : ScatterResult :=
  if 0 < rows.length then
    let x_vals := rows.map Row.total_bill
    let y_vals := rows.map Row.tip
    let fit := polyfit1 x_vals y_vals
    let line_x := linspace (colMin x_vals) (colMax x_vals) 100
    ScatterResult.fitChart (rows.map fun r => (r.total_bill, r.tip)) fit.1 fit.2
      (line_x.map fun x => (x, fit.1 * x + fit.2))
  else ScatterResult.emptyChart

/-- The spec's arithmetic mean of a column. -/
def mean (l : List ℚ) : ℚ := l.sum / l.length

/-- The spec's `Cov(x,y)`, normalized by `n`; the slope `Cov(x,y)/Var(x)`
does not depend on the normalization as long as `covSpec` and `varSpec`
share it. -/
def covSpec (xs ys : List ℚ) : ℚ :=
  ((xs.zip ys).map fun p => (p.1 - mean xs) * (p.2 - mean ys)).sum / xs.length

/-- The spec's `Var(x)`, normalized by `n` like `covSpec`. -/
def varSpec (xs : List ℚ) : ℚ :=
  (xs.map fun x => (x - mean xs) * (x - mean xs)).sum / xs.length

/-- `ui.update_slider("total_bill", value=v)` acting on the session state. -/
def update_total_bill (v : ℚ × ℚ) (s : FilterState) : FilterState :=
  { s with bill_range := v }

/-- `ui.update_checkbox_group("time", selected=v)`. -/
def update_time (v : List String) (s : FilterState) : FilterState :=
  { s with time_selection := v }

/-- `ui.update_checkbox_group("sex", selected=v)`. -/
def update_sex (v : List String) (s : FilterState) : FilterState :=
  { s with sex_selection := v }

/-- `ui.update_checkbox_group("smoker", selected=v)`. -/
def update_smoker (v : List String) (s : FilterState) : FilterState :=
  { s with smoker_selection := v }

/-- `ui.update_checkbox_group("day", selected=v)`. -/
def update_day (v : List String) (s : FilterState) : FilterState :=
  { s with day_selection := v }

/-- `ui.update_slider("size", value=v)`. -/
def update_size (v : ℤ × ℤ) (s : FilterState) : FilterState :=
  { s with size_range := v }

/-- `reset_filters` (app.py lines 205–214): the six update calls, applied to
the session state in source order. -/
def reset_filters (s : FilterState) : FilterState :=
  update_size (1, 6)
    (update_day ["Thur", "Fri", "Sat", "Sun"]
      (update_smoker ["Yes", "No"]
        (update_sex ["Male", "Female"]
          (update_time ["Lunch", "Dinner"]
            (update_total_bill (10, 50) s)))))

/-- The documented default snapshot, written out from the spec's words:
bill_range=[10,50], time={Lunch,Dinner}, sex={Male,Female}, smoker={Yes,No},
day={Thur,Fri,Sat,Sun}, size_range=[1,6]. -/
def defaultFilterState : FilterState :=
  { bill_range := (10, 50)
    time_selection := ["Lunch", "Dinner"]
    sex_selection := ["Male", "Female"]
    smoker_selection := ["Yes", "No"]
    day_selection := ["Thur", "Fri", "Sat", "Sun"]
    size_range := (1, 6) }

/-- The reactive session state the core sees: the frame from `read_file` and
the six filter inputs. -/
structure AppState where
  filters : FilterState
  rows : List Row
deriving DecidableEq

/-- `tips_data` as it runs in the session: its body performs reads
(`read_file()`, `input.total_bill()`, `input.time()`, …) and pure dataframe
operations; it contains no `ui.update_*` call and no assignment to the frame
or the inputs, so the session state it leaves behind is the state it was
given, and the value is the filtered frame. -/
def tips_data_run (st : AppState) : AppState × List Row :=
  (st, tips_data st.rows st.filters)

/-- A sample row shaped like a `tips.csv` record. -/
def rowA : Row := ⟨20, 3, "Male", "No", "Sat", "Dinner", 2⟩

/-- A second sample row, with a different `total_bill`. -/
def rowB : Row := ⟨30, 5, "Female", "No", "Sun", "Dinner", 4⟩

/-- A two-row sample dataset with two distinct `total_bill` values. -/
def sampleRows : List Row := [rowA, rowB]

/-- A filter state whose `time` selection has been emptied. -/
def emptyTimeState : FilterState :=
  { defaultFilterState with time_selection := [] }

/-- A filter state strictly inside the defaults on every dimension. -/
def narrowState : FilterState :=
  ⟨(15, 25), ["Dinner"], ["Male"], ["No"], ["Sat"], (1, 3)⟩

/-- The x column `np.array(data["total_bill"])` of `scatter_plot`. -/
def x_vals (rows : List Row) : List ℚ := rows.map Row.total_bill

/-- The y column `np.array(data["tip"])` of `scatter_plot`. -/
def y_vals (rows : List Row) : List ℚ := rows.map Row.tip

/-- The slope of `scatter_plot`'s best-fit line. -/
def slopeOf (rows : List Row) : ℚ := (polyfit1 (x_vals rows) (y_vals rows)).1

/-- The intercept of `scatter_plot`'s best-fit line. -/
def interceptOf (rows : List Row) : ℚ := (polyfit1 (x_vals rows) (y_vals rows)).2

/-- The sample xs `np.linspace(min(x_vals), max(x_vals), 100)` of
`scatter_plot`. -/
def line_x (rows : List Row) : List ℚ :=
  linspace (colMin (x_vals rows)) (colMax (x_vals rows)) 100

/-- The plotted best-fit line of `scatter_plot`: each sample x paired with
`slope * x + intercept`. -/
def line_points (rows : List Row) : List (ℚ × ℚ) :=
  (line_x rows).map fun x => (x, slopeOf rows * x + interceptOf rows)

/-- The discriminant `n·Σx² − (Σx)²` of the degree-1 normal equations — the
denominator of `polyfit1`. -/
def dq (xs : List ℚ) : ℚ :=
  (xs.length : ℚ) * (xs.map fun x => x * x).sum - xs.sum * xs.sum

/-! ## Theorems -/

theorem maskSelect_map (f : Row → Bool) :
    ∀ l : List Row, maskSelect l (l.map f) = l.filter f
  | [] => rfl
  | r :: rs => by
    simp only [List.map_cons, maskSelect, List.filter_cons]
    by_cases h : f r <;> simp [h, maskSelect_map f rs]

theorem bandList_map_map (f g : Row → Bool) :
    ∀ l : List Row, bandList (l.map f) (l.map g) = l.map fun r => f r && g r
  | [] => rfl
  | r :: rs => by
    simp only [List.map_cons, bandList, List.zipWith_cons_cons]
    exact congrArg _ (bandList_map_map f g rs)

/-- `tips_data` is exactly a filter of the dataset by the conjunction of the
six per-row predicates. -/
theorem tips_data_eq_filter (tips : List Row) (s : FilterState) :
    tips_data tips s = tips.filter (rowPass s) := by
  simp only [tips_data]
  rw [bandList_map_map, bandList_map_map, bandList_map_map, bandList_map_map,
    bandList_map_map, maskSelect_map]
  rfl

/-- Membership in the filtered view, written with the six predicates as
propositions. -/
theorem mem_tips_data_iff (tips : List Row) (s : FilterState) (r : Row) :
    r ∈ tips_data tips s ↔ r ∈ tips ∧
      (s.bill_range.1 ≤ r.total_bill ∧ r.total_bill ≤ s.bill_range.2 ∧
       r.time ∈ s.time_selection ∧ r.sex ∈ s.sex_selection ∧
       r.smoker ∈ s.smoker_selection ∧ r.day ∈ s.day_selection ∧
       s.size_range.1 ≤ r.size ∧ r.size ≤ s.size_range.2) := by
  rw [tips_data_eq_filter, List.mem_filter, rowPass]
  simp only [Bool.and_eq_true, decide_eq_true_eq]
  tauto

/-- C1: for every dataset and every `FilterState`, the filter engine returns
exactly the rows satisfying all six predicates simultaneously: the result is
a sublist of the dataset, every retained row is a dataset row satisfying all
six predicates, and a dataset row not retained fails at least one. -/
theorem filter_engine_exact (tips : List Row) (s : FilterState) :
    (tips_data tips s).Sublist tips ∧
      ∀ r : Row, r ∈ tips_data tips s ↔ r ∈ tips ∧
        (s.bill_range.1 ≤ r.total_bill ∧ r.total_bill ≤ s.bill_range.2 ∧
         r.time ∈ s.time_selection ∧ r.sex ∈ s.sex_selection ∧
         r.smoker ∈ s.smoker_selection ∧ r.day ∈ s.day_selection ∧
         s.size_range.1 ≤ r.size ∧ r.size ≤ s.size_range.2) := by
  refine ⟨?_, mem_tips_data_iff tips s⟩
  rw [tips_data_eq_filter]
  exact List.filter_sublist tips

/-- C6: when any of the four category selection sets is empty, the filter
engine returns the empty sequence, whatever the dataset and the other
filters. -/
theorem empty_selection_gives_empty (tips : List Row) (s : FilterState)
    (h : s.time_selection = [] ∨ s.sex_selection = [] ∨
         s.smoker_selection = [] ∨ s.day_selection = []) :
    tips_data tips s = [] := by
  rw [tips_data_eq_filter]
  refine List.filter_eq_nil_iff.mpr fun r _ => ?_
  rcases h with h | h | h | h <;> simp [rowPass, h]

/-- Witness for C6 at a concrete dataset and state. -/
theorem empty_selection_gives_empty_witness :
    (emptyTimeState.time_selection = [] ∨ emptyTimeState.sex_selection = [] ∨
     emptyTimeState.smoker_selection = [] ∨ emptyTimeState.day_selection = []) ∧
    tips_data sampleRows emptyTimeState = [] :=
  ⟨Or.inl rfl, empty_selection_gives_empty sampleRows emptyTimeState (Or.inl rfl)⟩

/-- C7: the filter engine preserves the relative order of the input rows —
its output is a subsequence of the input, and no input row occurs more often
in the output than in the input. -/
theorem filter_engine_order_preserving (tips : List Row) (s : FilterState) :
    (tips_data tips s).Sublist tips ∧
      ∀ r : Row, (tips_data tips s).count r ≤ tips.count r := by
  rw [tips_data_eq_filter]
  exact ⟨List.filter_sublist tips, fun r => (List.filter_sublist tips).count_le r⟩

/-- C8: the filter engine is idempotent — filtering its own output with the
same state returns that output unchanged. -/
theorem filter_engine_idempotent (tips : List Row) (s : FilterState) :
    tips_data (tips_data tips s) s = tips_data tips s := by
  simp [tips_data_eq_filter, List.filter_filter]

/-- C10: filtering is monotone in the filter state — when one state's ranges
are contained in another's and its selection sets are subsets, every row the
narrow state keeps is kept by the wide one, preserving order. -/
theorem filter_engine_monotone (tips : List Row) (s1 s2 : FilterState)
    (hbl : s2.bill_range.1 ≤ s1.bill_range.1) (hbu : s1.bill_range.2 ≤ s2.bill_range.2)
    (htime : s1.time_selection ⊆ s2.time_selection)
    (hsex : s1.sex_selection ⊆ s2.sex_selection)
    (hsmoker : s1.smoker_selection ⊆ s2.smoker_selection)
    (hday : s1.day_selection ⊆ s2.day_selection)
    (hsl : s2.size_range.1 ≤ s1.size_range.1) (hsu : s1.size_range.2 ≤ s2.size_range.2) :
    (tips_data tips s1).Sublist (tips_data tips s2) := by
  rw [tips_data_eq_filter, tips_data_eq_filter]
  refine List.monotone_filter_right tips fun r hr => ?_
  simp only [rowPass, Bool.and_eq_true, decide_eq_true_eq] at hr ⊢
  obtain ⟨⟨⟨⟨⟨⟨hb1, hb2⟩, ht⟩, hx⟩, hk⟩, hd⟩, hs1, hs2⟩ := hr
  exact ⟨⟨⟨⟨⟨⟨le_trans hbl hb1, le_trans hb2 hbu⟩, htime ht⟩, hsex hx⟩,
    hsmoker hk⟩, hday hd⟩, le_trans hsl hs1, le_trans hs2 hsu⟩

/-- Witness for C10: the narrow state is contained in the default state, and
the narrow filtered view is a subsequence of the default one. -/
theorem filter_engine_monotone_witness :
    (defaultFilterState.bill_range.1 ≤ narrowState.bill_range.1 ∧
     narrowState.bill_range.2 ≤ defaultFilterState.bill_range.2 ∧
     narrowState.time_selection ⊆ defaultFilterState.time_selection ∧
     narrowState.sex_selection ⊆ defaultFilterState.sex_selection ∧
     narrowState.smoker_selection ⊆ defaultFilterState.smoker_selection ∧
     narrowState.day_selection ⊆ defaultFilterState.day_selection ∧
     defaultFilterState.size_range.1 ≤ narrowState.size_range.1 ∧
     narrowState.size_range.2 ≤ defaultFilterState.size_range.2) ∧
    (tips_data sampleRows narrowState).Sublist (tips_data sampleRows defaultFilterState) := by
  have h1 : defaultFilterState.bill_range.1 ≤ narrowState.bill_range.1 := by norm_num [defaultFilterState, narrowState]
  have h2 : narrowState.bill_range.2 ≤ defaultFilterState.bill_range.2 := by norm_num [defaultFilterState, narrowState]
  have h3 : narrowState.time_selection ⊆ defaultFilterState.time_selection := by
    intro a ha; simp [narrowState, defaultFilterState] at ha ⊢; simp [ha]
  have h4 : narrowState.sex_selection ⊆ defaultFilterState.sex_selection := by
    intro a ha; simp [narrowState, defaultFilterState] at ha ⊢; simp [ha]
  have h5 : narrowState.smoker_selection ⊆ defaultFilterState.smoker_selection := by
    intro a ha; simp [narrowState, defaultFilterState] at ha ⊢; simp [ha]
  have h6 : narrowState.day_selection ⊆ defaultFilterState.day_selection := by
    intro a ha; simp [narrowState, defaultFilterState] at ha ⊢; simp [ha]
  have h7 : defaultFilterState.size_range.1 ≤ narrowState.size_range.1 := by norm_num [defaultFilterState, narrowState]
  have h8 : narrowState.size_range.2 ≤ defaultFilterState.size_range.2 := by norm_num [defaultFilterState, narrowState]
  exact ⟨⟨h1, h2, h3, h4, h5, h6, h7, h8⟩,
    filter_engine_monotone sampleRows narrowState defaultFilterState h1 h2 h3 h4 h5 h6 h7 h8⟩

/-- C5: after the reset effect runs, the filter state is exactly the
documented default snapshot, whatever the prior state; the effect always
succeeds. -/
theorem reset_restores_defaults (s : FilterState) :
    reset_filters s = defaultFilterState := rfl

/-- C9: running the filter engine leaves the session state — the filter
inputs and the loaded rows — exactly as it found them, and every row of its
output is one of the loaded rows, in their original order. -/
theorem filter_engine_no_side_effects (st : AppState) :
    (tips_data_run st).1 = st ∧ (tips_data_run st).2.Sublist st.rows := by
  refine ⟨rfl, ?_⟩
  rw [show (tips_data_run st).2 = tips_data st.rows st.filters from rfl,
    tips_data_eq_filter]
  exact List.filter_sublist st.rows

theorem left_le_foldl_max : ∀ (l : List ℚ) (a : ℚ), a ≤ l.foldl max a
  | [], a => le_refl a
  | b :: t, a => le_trans (le_max_left a b) (left_le_foldl_max t (max a b))

theorem foldl_max_mem : ∀ (l : List ℚ) (a : ℚ), l.foldl max a = a ∨ l.foldl max a ∈ l
  | [], a => Or.inl rfl
  | b :: t, a => by
    simp only [List.foldl_cons]
    rcases foldl_max_mem t (max a b) with h | h
    · rcases le_total a b with hab | hba
      · exact Or.inr (by rw [h, max_eq_right hab]; exact List.mem_cons_self b t)
      · exact Or.inl (by rw [h, max_eq_left hba])
    · exact Or.inr (List.mem_cons_of_mem b h)

theorem le_foldl_max_of_mem : ∀ (l : List ℚ) (a x : ℚ), x ∈ l → x ≤ l.foldl max a
  | [], _, x, hx => absurd hx (List.not_mem_nil x)
  | b :: t, a, x, hx => by
    simp only [List.foldl_cons]
    rcases List.mem_cons.mp hx with rfl | hxt
    · exact le_trans (le_max_right a x) (left_le_foldl_max t (max a x))
    · exact le_foldl_max_of_mem t (max a b) x hxt

/-- `colMax` of a non-empty column is an element of the column and an upper
bound for it. -/
theorem colMax_spec : ∀ l : List ℚ, l ≠ [] → colMax l ∈ l ∧ ∀ x ∈ l, x ≤ colMax l
  | [], h => absurd rfl h
  | b :: t, _ => by
    refine ⟨?_, ?_⟩
    · rcases foldl_max_mem t b with h | h
      · rw [colMax, h]; exact List.mem_cons_self b t
      · rw [colMax]; exact List.mem_cons_of_mem b h
    · intro x hx
      rcases List.mem_cons.mp hx with rfl | hxt
      · exact left_le_foldl_max t x
      · exact le_foldl_max_of_mem t b x hxt

theorem foldl_min_le_left : ∀ (l : List ℚ) (a : ℚ), l.foldl min a ≤ a
  | [], a => le_refl a
  | b :: t, a => le_trans (foldl_min_le_left t (min a b)) (min_le_left a b)

theorem foldl_min_mem : ∀ (l : List ℚ) (a : ℚ), l.foldl min a = a ∨ l.foldl min a ∈ l
  | [], a => Or.inl rfl
  | b :: t, a => by
    simp only [List.foldl_cons]
    rcases foldl_min_mem t (min a b) with h | h
    · rcases le_total a b with hab | hba
      · exact Or.inl (by rw [h, min_eq_left hab])
      · exact Or.inr (by rw [h, min_eq_right hba]; exact List.mem_cons_self b t)
    · exact Or.inr (List.mem_cons_of_mem b h)

theorem foldl_min_le_of_mem : ∀ (l : List ℚ) (a x : ℚ), x ∈ l → l.foldl min a ≤ x
  | [], _, x, hx => absurd hx (List.not_mem_nil x)
  | b :: t, a, x, hx => by
    simp only [List.foldl_cons]
    rcases List.mem_cons.mp hx with rfl | hxt
    · exact le_trans (foldl_min_le_left t (min a x)) (min_le_right a x)
    · exact foldl_min_le_of_mem t (min a b) x hxt

/-- `colMin` of a non-empty column is an element of the column and a lower
bound for it. -/
theorem colMin_spec : ∀ l : List ℚ, l ≠ [] → colMin l ∈ l ∧ ∀ x ∈ l, colMin l ≤ x
  | [], h => absurd rfl h
  | b :: t, _ => by
    refine ⟨?_, ?_⟩
    · rcases foldl_min_mem t b with h | h
      · rw [colMin, h]; exact List.mem_cons_self b t
      · rw [colMin]; exact List.mem_cons_of_mem b h
    · intro x hx
      rcases List.mem_cons.mp hx with rfl | hxt
      · exact foldl_min_le_left t x
      · exact foldl_min_le_of_mem t b x hxt

/-- C3: each summary output returns the "No data available" marker exactly
when the filtered subset is empty; on a non-empty subset the count is the
number of rows, the displayed average is the arithmetic mean of the tip
column rounded to two decimals, and the highest/lowest tips are the extrema
of the tip column. -/
theorem aggregation_correct (rows : List Row) :
    (total_sales rows = none ↔ rows = []) ∧
    (displayed_average_tip rows = none ↔ rows = []) ∧
    (highest_tip rows = none ↔ rows = []) ∧
    (lowest_tip rows = none ↔ rows = []) ∧
    (rows ≠ [] →
      total_sales rows = some rows.length ∧
      displayed_average_tip rows = some (round2 (mean (rows.map Row.tip))) ∧
      (∃ hi, highest_tip rows = some hi ∧ hi ∈ rows.map Row.tip ∧
        ∀ t ∈ rows.map Row.tip, t ≤ hi) ∧
      (∃ lo, lowest_tip rows = some lo ∧ lo ∈ rows.map Row.tip ∧
        ∀ t ∈ rows.map Row.tip, lo ≤ t)) := by
  by_cases h : rows = []
  · subst h
    simp [total_sales, displayed_average_tip, average_tip, highest_tip, lowest_tip]
  · have hlen : 0 < rows.length := List.length_pos.mpr h
    have hmapne : rows.map Row.tip ≠ [] := by
      simpa [List.map_eq_nil_iff] using h
    refine ⟨?_, ?_, ?_, ?_, fun _ => ?_⟩
    · simp [total_sales, hlen, h]
    · simp [displayed_average_tip, average_tip, hlen, h]
    · simp [highest_tip, hlen, h]
    · simp [lowest_tip, hlen, h]
    refine ⟨by simp [total_sales, hlen], ?_, ?_, ?_⟩
    · simp [displayed_average_tip, average_tip, hlen, mean]
    · obtain ⟨hmem, hub⟩ := colMax_spec (rows.map Row.tip) hmapne
      exact ⟨colMax (rows.map Row.tip), by simp [highest_tip, hlen], hmem, hub⟩
    · obtain ⟨hmem, hlb⟩ := colMin_spec (rows.map Row.tip) hmapne
      exact ⟨colMin (rows.map Row.tip), by simp [lowest_tip, hlen], hmem, hlb⟩

/-- Witness for C3 at the concrete two-row sample dataset. -/
theorem aggregation_correct_witness :
    (total_sales sampleRows = none ↔ sampleRows = []) ∧
    (displayed_average_tip sampleRows = none ↔ sampleRows = []) ∧
    (highest_tip sampleRows = none ↔ sampleRows = []) ∧
    (lowest_tip sampleRows = none ↔ sampleRows = []) ∧
    (sampleRows ≠ [] →
      total_sales sampleRows = some sampleRows.length ∧
      displayed_average_tip sampleRows = some (round2 (mean (sampleRows.map Row.tip))) ∧
      (∃ hi, highest_tip sampleRows = some hi ∧ hi ∈ sampleRows.map Row.tip ∧
        ∀ t ∈ sampleRows.map Row.tip, t ≤ hi) ∧
      (∃ lo, lowest_tip sampleRows = some lo ∧ lo ∈ sampleRows.map Row.tip ∧
        ∀ t ∈ sampleRows.map Row.tip, lo ≤ t)) :=
  aggregation_correct sampleRows

/-- Counterexample to C2: on the single-row filtered subset `[rowA]` — one
row, hence a single distinct `total_bill` value — `scatter_plot` does not
render the blank placeholder figure: it takes the fit branch and renders a
fitted line. -/
theorem scatter_plot_single_row_fits :
    scatter_plot [rowA] ≠ ScatterResult.emptyChart := by
  simp [scatter_plot]

/-- C2 amended: `scatter_plot` renders the blank "No data available" figure
exactly when the filtered subset is empty; on every non-empty subset —
including a single row, or rows with a single distinct `total_bill` value —
it runs `np.polyfit` and renders a fitted line (numpy solves the
rank-deficient system by least squares with a `RankWarning` rather than
raising or dividing by zero). -/
theorem scatter_plot_empty_iff (rows : List Row) :
    scatter_plot rows = ScatterResult.emptyChart ↔ rows = [] := by
  constructor
  · intro h
    by_contra hne
    have hlen : 0 < rows.length := List.length_pos.mpr hne
    simp [scatter_plot, hlen] at h
  · intro h
    subst h
    rfl

theorem sum_shift_mul : ∀ (xs ys : List ℚ) (a b : ℚ), xs.length = ys.length →
    ((xs.zip ys).map fun p => (p.1 - a) * (p.2 - b)).sum =
      ((xs.zip ys).map fun p => p.1 * p.2).sum - a * ys.sum - b * xs.sum +
        (xs.length : ℚ) * (a * b)
  | [], [], a, b, _ => by simp
  | [], _ :: _, _, _, h => by simp at h
  | _ :: _, [], _, _, h => by simp at h
  | x :: xs, y :: ys, a, b, h => by
    have h' : xs.length = ys.length := by simpa using h
    simp only [List.zip_cons_cons, List.map_cons, List.sum_cons, List.length_cons]
    rw [sum_shift_mul xs ys a b h']
    push_cast
    ring

theorem sum_shift_sq : ∀ (xs : List ℚ) (a : ℚ),
    (xs.map fun x => (x - a) * (x - a)).sum =
      (xs.map fun x => x * x).sum - 2 * a * xs.sum + (xs.length : ℚ) * (a * a)
  | [], a => by simp
  | x :: xs, a => by
    simp only [List.map_cons, List.sum_cons, List.length_cons]
    rw [sum_shift_sq xs a]
    push_cast
    ring

theorem sq_map_sum_nonneg (t : List ℚ) (c : ℚ) :
    0 ≤ (t.map fun x => (x - c) * (x - c)).sum :=
  List.sum_nonneg fun y hy => by
    obtain ⟨x, _, rfl⟩ := List.mem_map.mp hy
    exact mul_self_nonneg _

theorem sq_term_le_sum (t : List ℚ) (c b : ℚ) (hb : b ∈ t) :
    (b - c) * (b - c) ≤ (t.map fun x => (x - c) * (x - c)).sum :=
  List.single_le_sum
    (fun y hy => by
      obtain ⟨x, _, rfl⟩ := List.mem_map.mp hy
      exact mul_self_nonneg _)
    _ (List.mem_map_of_mem _ hb)

theorem dq_cons (c : ℚ) (t : List ℚ) :
    dq (c :: t) = dq t + (t.map fun x => (x - c) * (x - c)).sum := by
  simp only [dq, List.length_cons, List.map_cons, List.sum_cons]
  rw [sum_shift_sq t c]
  push_cast
  ring

theorem dq_nonneg : ∀ xs : List ℚ, 0 ≤ dq xs
  | [] => by simp [dq]
  | c :: t => by
    rw [dq_cons]
    have h1 := sq_map_sum_nonneg t c
    have h2 := dq_nonneg t
    linarith

/-- The discriminant is strictly positive as soon as the x column holds two
distinct values — the non-degeneracy behind `Var(x) ≠ 0`. -/
theorem dq_pos : ∀ (xs : List ℚ) (a b : ℚ), a ∈ xs → b ∈ xs → a ≠ b → 0 < dq xs
  | [], a, _, ha, _, _ => absurd ha (List.not_mem_nil a)
  | c :: t, a, b, ha, hb, hab => by
    rw [dq_cons]
    have hnn := sq_map_sum_nonneg t c
    have hdq := dq_nonneg t
    rcases List.mem_cons.mp ha with rfl | hat
    · rcases List.mem_cons.mp hb with rfl | hbt
      · exact absurd rfl hab
      · have hterm : 0 < (b - a) * (b - a) :=
          mul_self_pos.mpr (sub_ne_zero.mpr (Ne.symm hab))
        have hle := sq_term_le_sum t a b hbt
        linarith
    · rcases List.mem_cons.mp hb with rfl | hbt
      · have hterm : 0 < (a - b) * (a - b) :=
          mul_self_pos.mpr (sub_ne_zero.mpr hab)
        have hle := sq_term_le_sum t b a hat
        linarith
      · have := dq_pos t a b hat hbt hab
        linarith

theorem covSpec_eq (xs ys : List ℚ) (h : xs.length = ys.length)
    (hn : (xs.length : ℚ) ≠ 0) :
    covSpec xs ys =
      ((xs.length : ℚ) * ((xs.zip ys).map fun p => p.1 * p.2).sum - xs.sum * ys.sum) /
        ((xs.length : ℚ) * (xs.length : ℚ)) := by
  have hy : (ys.length : ℚ) = (xs.length : ℚ) := by rw [h]
  rw [covSpec, sum_shift_mul xs ys (mean xs) (mean ys) h, mean, mean, hy]
  field_simp
  ring

theorem varSpec_eq (xs : List ℚ) (hn : (xs.length : ℚ) ≠ 0) :
    varSpec xs = dq xs / ((xs.length : ℚ) * (xs.length : ℚ)) := by
  rw [varSpec, sum_shift_sq xs (mean xs), mean, dq]
  field_simp
  ring

theorem polyfit1_fst (xs ys : List ℚ) :
    (polyfit1 xs ys).1 =
      ((xs.length : ℚ) * ((xs.zip ys).map fun p => p.1 * p.2).sum - xs.sum * ys.sum) /
        dq xs := rfl

theorem polyfit1_snd (xs ys : List ℚ) :
    (polyfit1 xs ys).2 =
      ((xs.map fun x => x * x).sum * ys.sum -
        xs.sum * ((xs.zip ys).map fun p => p.1 * p.2).sum) / dq xs := rfl

/-- The closed-form slope of `np.polyfit(x, y, 1)` is `Cov(x,y) / Var(x)`
whenever the design is full-rank. -/
theorem polyfit1_slope_ols (xs ys : List ℚ) (h : xs.length = ys.length)
    (_hd : dq xs ≠ 0) (hn : (xs.length : ℚ) ≠ 0) :
    (polyfit1 xs ys).1 = covSpec xs ys / varSpec xs := by
  rw [polyfit1_fst, covSpec_eq xs ys h hn, varSpec_eq xs hn,
    div_div_div_cancel_right₀ (mul_ne_zero hn hn)]

/-- The closed-form intercept of `np.polyfit(x, y, 1)` is
`mean y − slope · mean x` whenever the design is full-rank. -/
theorem polyfit1_intercept_ols (xs ys : List ℚ) (h : xs.length = ys.length)
    (hd : dq xs ≠ 0) (hn : (xs.length : ℚ) ≠ 0) :
    (polyfit1 xs ys).2 = mean ys - (polyfit1 xs ys).1 * mean xs := by
  have hy : (ys.length : ℚ) = (xs.length : ℚ) := by rw [h]
  rw [polyfit1_fst, polyfit1_snd, mean, mean, hy]
  simp only [dq] at hd ⊢
  field_simp
  ring

theorem linspace_length (a b : ℚ) (n : ℕ) : (linspace a b n).length = n := by
  simp [linspace]

theorem linspace_getElem? (a b : ℚ) {n i : ℕ} (h : i < n) :
    (linspace a b n)[i]? = some (a + (b - a) * i / ((n : ℚ) - 1)) := by
  simp [linspace, List.getElem?_map, List.getElem?_range h]

theorem linspace_head (a b : ℚ) (n : ℕ) : (linspace a b (n + 1)).head? = some a := by
  rw [linspace, List.range_succ_eq_map]
  simp

theorem linspace100_head (a b : ℚ) : (linspace a b 100).head? = some a :=
  linspace_head a b 99

theorem linspace100_getLast (a b : ℚ) : (linspace a b 100).getLast? = some b := by
  rw [show (100 : ℕ) = 99 + 1 from rfl, linspace, List.range_succ,
    List.map_append, List.map_cons, List.map_nil, List.getLast?_concat]
  congr 1
  push_cast
  norm_num

/-- On a non-empty filtered subset, `scatter_plot` returns the fitted chart
built from its fit and sampled line. -/
theorem scatter_plot_eq_fitChart (rows : List Row) (h : rows ≠ []) :
    scatter_plot rows =
      ScatterResult.fitChart (rows.map fun r => (r.total_bill, r.tip))
        (slopeOf rows) (interceptOf rows) (line_points rows) := by
  have hlen : 0 < rows.length := List.length_pos.mpr h
  simp [scatter_plot, hlen, slopeOf, interceptOf, line_points, line_x, x_vals, y_vals]

/-- C4: on a filtered subset with at least two distinct `total_bill` values,
the trend fit of `scatter_plot` is ordinary least squares — slope
`Cov(x,y)/Var(x)`, intercept `mean y − slope · mean x` — and the rendered
line has exactly 100 sample points, at evenly spaced x-values running from
`min x` (sample 0) to `max x` (sample 99) in steps of `(max x − min x)/99`,
each paired with the fitted `slope·x + intercept`. -/
theorem trend_fit_ols (rows : List Row)
    (hx : ∃ r ∈ rows, ∃ q ∈ rows, Row.total_bill r ≠ Row.total_bill q) :
    slopeOf rows = covSpec (x_vals rows) (y_vals rows) / varSpec (x_vals rows) ∧
    interceptOf rows = mean (y_vals rows) - slopeOf rows * mean (x_vals rows) ∧
    scatter_plot rows =
      ScatterResult.fitChart (rows.map fun r => (r.total_bill, r.tip))
        (slopeOf rows) (interceptOf rows) (line_points rows) ∧
    (line_x rows).length = 100 ∧
    (line_x rows).head? = some (colMin (x_vals rows)) ∧
    (line_x rows).getLast? = some (colMax (x_vals rows)) ∧
    (∀ i : ℕ, i < 100 → (line_x rows)[i]? =
      some (colMin (x_vals rows) +
        (colMax (x_vals rows) - colMin (x_vals rows)) * i / 99)) ∧
    ∀ i : ℕ, i < 100 → (line_points rows)[i]? =
      some (colMin (x_vals rows) +
          (colMax (x_vals rows) - colMin (x_vals rows)) * i / 99,
        slopeOf rows *
            (colMin (x_vals rows) +
              (colMax (x_vals rows) - colMin (x_vals rows)) * i / 99) +
          interceptOf rows) := by
  obtain ⟨r, hr, q, hq, hne⟩ := hx
  have hrne : rows ≠ [] := by
    rintro rfl
    exact absurd hr (List.not_mem_nil r)
  have hlenpos : 0 < rows.length := List.length_pos.mpr hrne
  have hd : dq (x_vals rows) ≠ 0 :=
    ne_of_gt (dq_pos (x_vals rows) _ _ (List.mem_map_of_mem _ hr)
      (List.mem_map_of_mem _ hq) hne)
  have hlen : (x_vals rows).length = (y_vals rows).length := by
    simp [x_vals, y_vals]
  have hn : ((x_vals rows).length : ℚ) ≠ 0 := by
    have hx : (x_vals rows).length = rows.length := by simp [x_vals]
    rw [hx]
    exact_mod_cast Nat.pos_iff_ne_zero.mp hlenpos
  have hstep : ∀ i : ℕ, i < 100 → (line_x rows)[i]? =
      some (colMin (x_vals rows) +
        (colMax (x_vals rows) - colMin (x_vals rows)) * i / 99) := by
    intro i hi
    rw [line_x, linspace_getElem? _ _ hi]
    norm_num
  refine ⟨polyfit1_slope_ols _ _ hlen hd hn, polyfit1_intercept_ols _ _ hlen hd hn,
    scatter_plot_eq_fitChart rows hrne, linspace_length _ _ _, ?_, ?_, hstep, ?_⟩
  · rw [line_x]
    exact linspace100_head _ _
  · rw [line_x]
    exact linspace100_getLast _ _
  · intro i hi
    rw [line_points, List.getElem?_map, hstep i hi]
    rfl

/-- Witness for C4 at the concrete two-row sample dataset, whose two
`total_bill` values 20 and 30 are distinct. -/
theorem trend_fit_ols_witness :
    (∃ r ∈ sampleRows, ∃ q ∈ sampleRows, Row.total_bill r ≠ Row.total_bill q) ∧
    (slopeOf sampleRows =
        covSpec (x_vals sampleRows) (y_vals sampleRows) / varSpec (x_vals sampleRows) ∧
      interceptOf sampleRows =
        mean (y_vals sampleRows) - slopeOf sampleRows * mean (x_vals sampleRows) ∧
      scatter_plot sampleRows =
        ScatterResult.fitChart (sampleRows.map fun r => (r.total_bill, r.tip))
          (slopeOf sampleRows) (interceptOf sampleRows) (line_points sampleRows) ∧
      (line_x sampleRows).length = 100 ∧
      (line_x sampleRows).head? = some (colMin (x_vals sampleRows)) ∧
      (line_x sampleRows).getLast? = some (colMax (x_vals sampleRows)) ∧
      (∀ i : ℕ, i < 100 → (line_x sampleRows)[i]? =
        some (colMin (x_vals sampleRows) +
          (colMax (x_vals sampleRows) - colMin (x_vals sampleRows)) * i / 99)) ∧
      ∀ i : ℕ, i < 100 → (line_points sampleRows)[i]? =
        some (colMin (x_vals sampleRows) +
            (colMax (x_vals sampleRows) - colMin (x_vals sampleRows)) * i / 99,
          slopeOf sampleRows *
              (colMin (x_vals sampleRows) +
                (colMax (x_vals sampleRows) - colMin (x_vals sampleRows)) * i / 99) +
            interceptOf sampleRows)) :=
  have hx : ∃ r ∈ sampleRows, ∃ q ∈ sampleRows, Row.total_bill r ≠ Row.total_bill q :=
    ⟨rowA, by simp [sampleRows], rowB, by simp [sampleRows], by decide⟩
  ⟨hx, trend_fit_ols sampleRows hx⟩

end TipsApp
